import Mathlib

/-!
Shallow embedding of the git-biasect orchestrator, the `run` subcommand of
src/bin/git-biasect.rs.  Pure decision logic of the main loop is translated
into executable Lean functions: the exit-code classification, the endpoint
bounds-violation check, the reporting gate, the cancellation of invalidated
runners, the runner-set update, and the polling scan.  The library functions
git_biasect::alloc::init and git_biasect::alloc::step are not part of the
sources; where a claim needs an aspect of them, that aspect is modelled from
the specification and marked as such in its doc comment.
-/

namespace GitBiasect

/-- Resolution status of a commit (library type git_biasect::Status, used
throughout main). -/
inductive Status where
  | Unknown
  | Good
  | Bad
  | Skip
deriving DecidableEq, Repr

/-- A commit record: revision hash plus resolution status (library type
git_biasect::CommitState; main reads the fields hash and status). -/
structure CommitState where
  hash : String
  status : Status
deriving DecidableEq, Repr

/-- Default commit record for out-of-range list reads. -/
def dflt : CommitState := ⟨"", Status.Unknown⟩

/-- One live worker, an entry of the runners vector (Vec of (usize, Child) in
main): the commit index it evaluates, the cached observation of try_wait
(none while running, some exit code once exited; the Child caches the status
after the first successful reap, so it stays some), and whether a kill request
on this child would succeed. -/
structure Runner where
  idx : Nat
  completed : Option Int
  kill_ok : Bool
deriving DecidableEq, Repr

/-- bounds_validated (git-biasect.rs lines 91 to 99): true in reckless mode or
on an empty commit list; otherwise the set of statuses must contain both Good
and Bad.  The Rust builds a HashSet of all statuses and asks contains Good and
contains Bad, which holds exactly when some record is Good and some is Bad. -/
def bounds_validated (commits : List CommitState) (reckless_mode : Bool) : Bool :=
  if reckless_mode || commits.isEmpty then true
  else
    commits.any (fun x => x.status == Status.Good) &&
      commits.any (fun x => x.status == Status.Bad)

/-- bisect_report_all (lines 101 to 107): the sequence of (status, hash) pairs
reported to the external log, one per commit whose status is not Unknown, in
list traversal order, which is index order. -/
def bisect_report_all (commits : List CommitState) : List (Status × String) :=
  (commits.filter (fun c => c.status != Status.Unknown)).map (fun c => (c.status, c.hash))

/-- Exit-code classification (lines 170 to 176): 0 to Good, 124 to Skip, any
other value to Bad. -/
def classify_exit (exit_code : Int) : Status :=
  if exit_code = 0 then Status.Good
  else if exit_code = 124 then Status.Skip
  else Status.Bad

/-- Effective exit code (lines 165 to 169): code().or_else with the signal
number, so a process killed by a signal contributes its signal number. -/
def exit_code_of (code signal : Option Int) : Option Int :=
  code.orElse (fun _ => signal)

/-- The endpoint bounds-violation test (lines 180 and 198): index 0 resolving
Bad, or the last index (n minus 1) resolving Good. -/
def bounds_violation (resolved_index n : Nat) (st : Status) : Bool :=
  (resolved_index == 0 && st == Status.Bad) ||
    (resolved_index == n - 1 && st == Status.Good)

/-- Modelled from the spec: git_biasect::alloc::step is a library function
whose source is not in the sources here.  Spec section 4.2 step 1 says the
result is recorded into the CandidateRecord at resolved_index; only this
recording aspect of step is modelled. -/
def step_record (cs : List CommitState) (idx : Nat) (st : Status) : List CommitState :=
  cs.set idx ⟨(cs.getD idx dflt).hash, st⟩

/-- The externally visible reporting decision of one loop iteration. -/
inductive ReportAction where
  | flushAll (reports : List (Status × String))
  | single (report : Status × String)
  | noReport
deriving DecidableEq, Repr

/-- Reporting gate (lines 252 to 270), evaluated on the post-step commit state:
when bounds are validated and the resolved index is an endpoint of the
sequence, flush all resolved records via bisect_report_all; when bounds are
validated and the resolved index is interior, report only the just-resolved
record; when bounds are not validated, report nothing. -/
def report_gate (cs : List CommitState) (reckless : Bool) (idx : Nat) (st : Status)
    (hash : String) : ReportAction :=
  if bounds_validated cs reckless ∧ (idx = 0 ∨ idx = cs.length - 1) then
    ReportAction.flushAll (bisect_report_all cs)
  else if bounds_validated cs reckless then
    ReportAction.single (st, hash)
  else
    ReportAction.noReport

/-- Kill every runner in the given list in order; none models the panic on a
failed kill (lines 285 to 293).  On success the killed indices are returned in
order. -/
def kill_list : List Runner → Option (List Nat)
  | [] => some []
  | r :: rest =>
    if r.kill_ok then (kill_list rest).map (fun l => r.idx :: l)
    else none

/-- One pass of the inner cancellation loop (lines 280 to 293): kill every
live runner whose commit index equals commit_idx. -/
def cancel_one (commit_idx : Nat) (runners : List Runner) : Option (List Nat) :=
  kill_list (runners.filter (fun x => x.idx == commit_idx))

/-- The outer cancellation loop over a list of stale commit indices. -/
def seq_cancels (runners : List Runner) : List Nat → Option (List (List Nat))
  | [] => some []
  | i :: rest =>
    match cancel_one i runners with
    | none => none
    | some l => (seq_cancels runners rest).map (fun ls => l :: ls)

/-- Cancellation of invalidated tasks (lines 272 to 295): iterate the old
assignment indices that lie in the invalidated set and kill every matching
live runner; a kill failure is fatal and aborts the run (none). -/
def cancel_invalidated (old_assignments invalidated : List Nat)
    (runners : List Runner) : Option (List (List Nat)) :=
  seq_cancels runners (old_assignments.filter (fun i => invalidated.contains i))

/-- All indices killed by a successful cancellation. -/
def killed_indices (old_assignments invalidated : List Nat)
    (runners : List Runner) : List Nat :=
  ((cancel_invalidated old_assignments invalidated runners).getD []).flatten

/-- The observation a completed runner contributes to the scan. -/
def runner_result (r : Runner) : Option (Nat × Int) :=
  r.completed.map (fun code => (r.idx, code))

/-- The body of the scan loop (lines 153 to 159): a completed runner
overwrites the accumulator, called first_completed in the source; a pending
runner leaves it alone. -/
def scan_step (first_completed : Option (Nat × Int)) (r : Runner) : Option (Nat × Int) :=
  match r.completed with
  | some code => some (r.idx, code)
  | none => first_completed

/-- One scan of the runner list (lines 152 to 159): visit every runner in the
given order; every completed runner overwrites the accumulator, so the scan
yields the completion of the last completed runner in scan order, or none
when no runner has completed. -/
def scan_select (order : List Runner) : Option (Nat × Int) :=
  order.foldl scan_step none

/-- The inner polling loop (lines 152 to 162), fuel-indexed: rescan the runner
list until a completion is found; none when the fuel runs out with no
completion found.  The completion observations are those of the runner list;
an empty runner list offers none at any fuel. -/
def poll_loop (runners : List Runner) : Nat → Option (Nat × Int)
  | 0 => none
  | fuel + 1 =>
    match scan_select runners with
    | some r => some r
    | none => poll_loop runners fuel

/-- The polling phase returns within some finite number of rescans. -/
def poll_terminates (runners : List Runner) : Prop :=
  ∃ fuel, (poll_loop runners fuel).isSome = true

/-- Runner-set update after processing a completion (lines 297 to 303): drop
every invalidated runner and the just-resolved runner. -/
def surviving_runners (runners : List Runner) (invalidated : List Nat)
    (resolved_idx : Nat) : List Runner :=
  runners.filter (fun commit => !(invalidated.contains commit.idx || resolved_idx == commit.idx))

/-- A freshly launched runner (start_runners, lines 70 to 89): still running. -/
def launch_runner (commit_idx : Nat) : Runner :=
  ⟨commit_idx, none, true⟩

/-- Outcome of one main-loop iteration once a completion has been selected. -/
inductive IterResult where
  | halted (offending_hash : String) (exit_code : Int) (ret : Except String Unit)
  | fatal (reports : List (Status × String))
  | cont (cs : List CommitState) (reports : List (Status × String))
      (runners : List Runner) (brk : Bool)

/-- The reports emitted to the external log during the iteration. -/
def iter_reports : IterResult → List (Status × String)
  | IterResult.halted _ _ _ => []
  | IterResult.fatal reports => reports
  | IterResult.cont _ reports _ _ => reports

/-- The value returned from main by this iteration, when it returns. -/
def iter_ret : IterResult → Option (Except String Unit)
  | IterResult.halted _ _ ret => some ret
  | IterResult.fatal _ => none
  | IterResult.cont _ _ _ _ => none

/-- The reports an action emits: a flush emits its whole list, a single report
emits one pair, the withheld case emits nothing. -/
def action_reports : ReportAction → List (Status × String)
  | ReportAction.flushAll reports => reports
  | ReportAction.single report => [report]
  | ReportAction.noReport => []

/-- One iteration of the main loop (lines 164 to 316) after the poll selected
the pair of resolved_idx and exit_code: classify the exit code; on an endpoint
bounds violation halt immediately with the offending hash, the exit code and
the return value of main, before any step call and any report; otherwise
record the result, run the reporting gate on the new state, cancel invalidated
runners (kill failure is fatal), and build the next runner set, breaking when
it is empty.  The stale and new-assignment outputs of the library step are
inputs here (invalidated, new_assigned) because the source of alloc::step is
not among the sources. -/
def orchestrate_tick (commits : List String) (cs : List CommitState) (reckless : Bool)
    (runners : List Runner) (old_assignments : List Nat) (resolved_idx : Nat)
    (exit_code : Int) (invalidated new_assigned : List Nat) : IterResult :=
  let exit_status := classify_exit exit_code
  if resolved_idx = 0 ∧ exit_status = Status.Bad then
    IterResult.halted (commits.getD resolved_idx "") exit_code (Except.ok ())
  else if resolved_idx = commits.length - 1 ∧ exit_status = Status.Good then
    IterResult.halted (commits.getD resolved_idx "") exit_code (Except.ok ())
  else
    let cs2 := step_record cs resolved_idx exit_status
    let action := report_gate cs2 reckless resolved_idx exit_status
      (commits.getD resolved_idx "")
    match cancel_invalidated old_assignments invalidated runners with
    | none => IterResult.fatal (action_reports action)
    | some _ =>
      let runners2 := surviving_runners runners invalidated resolved_idx ++
        new_assigned.map launch_runner
      IterResult.cont cs2 (action_reports action) runners2 runners2.isEmpty

/-- Spec-side description of a flush (section 4.3 step 6): the resolved
records read off position by position in increasing index order. -/
def resolved_reports_spec (cs : List CommitState) : List (Status × String) :=
  ((List.range cs.length).filter (fun i => (cs.getD i dflt).status != Status.Unknown)).map
    (fun i => ((cs.getD i dflt).status, (cs.getD i dflt).hash))

/-- Modelled from the spec: the valid-interval recomputation lives in
git_biasect::alloc::step, whose source is not among the sources.  Spec
section 3: lo is the highest index holding a Good resolution, default 0;
Skip and Unknown entries are ignored. -/
def compute_lo (cs : List CommitState) : Nat :=
  (List.range cs.length).foldl
    (fun acc i => if (cs.getD i dflt).status == Status.Good then i else acc) 0

/-- Modelled from the spec: hi is the lowest index holding a Bad resolution,
default the last index; Skip and Unknown entries are ignored. -/
def compute_hi (cs : List CommitState) : Nat :=
  (List.range cs.length).foldr
    (fun i acc => if (cs.getD i dflt).status == Status.Bad then i else acc)
    (cs.length - 1)

/-- The per-iteration generator seed (line 135): seed_from_u64 applied to the
loop iteration counter. -/
def rng_seed_of_iter (loop_iter : Nat) : Nat := loop_iter

/-- Scan order of one tick (line 153): choose_multiple over the runner
iterator with the amount equal to the runner count.  Reservoir sampling fills
its buffer with the first amount elements in encounter order and consults the
generator only for elements beyond the buffer, of which there are none here,
so the produced order is the runner-list order — a deterministic function of
the seed and the runner list. -/
def scan_order (_seed : Nat) (runners : List Runner) : List Runner :=
  runners

/-- What a run observes about a runner while polling: its commit index and its
completion state. -/
def runner_obs (r : Runner) : Nat × Option Int := (r.idx, r.completed)

/-- The completion selected in one tick, as a function of the iteration
counter and the runner list. -/
def tick_selection (loop_iter : Nat) (runners : List Runner) : Option (Nat × Int) :=
  scan_select (scan_order (rng_seed_of_iter loop_iter) runners)

/-- Ten all-Unknown commit records, hashes c0 to c9, the bounds-gating
scenario state at run start. -/
def csTen : List CommitState :=
  [⟨"c0", Status.Unknown⟩, ⟨"c1", Status.Unknown⟩, ⟨"c2", Status.Unknown⟩,
   ⟨"c3", Status.Unknown⟩, ⟨"c4", Status.Unknown⟩, ⟨"c5", Status.Unknown⟩,
   ⟨"c6", Status.Unknown⟩, ⟨"c7", Status.Unknown⟩, ⟨"c8", Status.Unknown⟩,
   ⟨"c9", Status.Unknown⟩]

/-! Helper lemmas shared by the claim theorems. -/

theorem getD_set_ne {α : Type} (l : List α) (i j : Nat) (a d : α) (h : i ≠ j) :
    (l.set i a).getD j d = l.getD j d := by
  induction l generalizing i j with
  | nil => rfl
  | cons x xs ih =>
    cases i with
    | zero =>
      cases j with
      | zero => exact absurd rfl h
      | succ j2 => simp [List.set]
    | succ i2 =>
      cases j with
      | zero => simp [List.set]
      | succ j2 =>
        simpa [List.set] using ih i2 j2 (fun hh => h (by rw [hh]))

theorem getD_set_self {α : Type} (l : List α) (i : Nat) (a d : α) :
    (l.set i a).getD i d = if i < l.length then a else d := by
  induction l generalizing i with
  | nil => simp [List.set]
  | cons x xs ih =>
    cases i with
    | zero => simp [List.set]
    | succ i2 => simpa [List.set, Nat.succ_lt_succ_iff] using ih i2

theorem scan_foldl_last (l : List Runner) : ∀ acc : Option (Nat × Int),
    l.foldl scan_step acc =
      match l.reverse.findSome? runner_result with
      | some x => some x
      | none => acc := by
  induction l with
  | nil => intro acc; rfl
  | cons r t ih =>
    intro acc
    rw [List.foldl_cons, ih, List.reverse_cons, List.findSome?_append]
    cases h : t.reverse.findSome? runner_result with
    | some x => rfl
    | none =>
      show scan_step acc r = _
      cases hc : r.completed with
      | some code => simp [scan_step, runner_result, hc, List.findSome?]
      | none => simp [scan_step, runner_result, hc, List.findSome?]

theorem scan_select_eq_last (l : List Runner) :
    scan_select l = l.reverse.findSome? runner_result := by
  rw [scan_select, scan_foldl_last l none]
  cases h : l.reverse.findSome? runner_result <;> rfl

theorem scan_select_isSome_of_mem (l : List Runner) (r : Runner) (code : Int)
    (hr : r ∈ l) (hc : r.completed = some code) : scan_select l ≠ none := by
  rw [scan_select_eq_last]
  intro hnone
  have hall := List.findSome?_eq_none_iff.mp hnone r (List.mem_reverse.mpr hr)
  rw [runner_result, hc] at hall
  exact Option.noConfusion hall

/-! C5: which completion does a tick act on. -/

/-- C5 counterexample: runners at indices 3 and 6 both completed in the same
tick; the scan acts on the completion of index 6, the last one discovered in
scan order, while the first completion discovered in scan order is that of
index 3, contradicting the claim that the first one is acted on. -/
theorem c5_counterexample :
    scan_select [⟨3, some 0, true⟩, ⟨6, some 0, true⟩] = some (6, 0) ∧
    List.findSome? runner_result [⟨3, some 0, true⟩, ⟨6, some 0, true⟩] = some (3, 0) ∧
    (some ((6 : Nat), (0 : Int)) ≠ some ((3 : Nat), (0 : Int))) := by
  refine ⟨rfl, rfl, by decide⟩

/-- C5 amended: within a poll tick with several completed workers, the
completion the orchestrator acts on is the last one discovered in that tick's
scan order over the runner set (each discovery overwrites the previous one);
the rest are deferred to the next tick. -/
theorem c5_amended_last_discovered (order : List Runner) :
    scan_select order = order.reverse.findSome? runner_result :=
  scan_select_eq_last order

/-! C4: no completion is lost when several complete in the same tick. -/

/-- C4: when two workers complete in the same tick, only the selected one is
processed; any other completed worker that is neither the resolved index nor
invalidated stays in the updated runner set with its completion observation
intact, so the very next scan finds a completion again — no completion is
lost. -/
theorem c4_completion_not_lost (runners : List Runner) (invalidated new_assigned : List Nat)
    (b : Runner) (i : Nat) (c cb : Int)
    (hb : b ∈ runners) (hcb : b.completed = some cb)
    (hsel : scan_select runners = some (i, c)) (hne : b.idx ≠ i)
    (hninv : b.idx ∉ invalidated) :
    scan_select runners = some (i, c) ∧
    b ∈ surviving_runners runners invalidated i ∧
    scan_select (surviving_runners runners invalidated i ++
      new_assigned.map launch_runner) ≠ none := by
  have hmem : b ∈ surviving_runners runners invalidated i := by
    rw [surviving_runners, List.mem_filter]
    refine ⟨hb, ?_⟩
    have h1 : invalidated.contains b.idx = false := by
      rw [← Bool.not_eq_true]
      intro hcon
      exact hninv (List.elem_iff.mp hcon)
    have h2 : (i == b.idx) = false := by
      rw [beq_eq_false_iff_ne]
      exact fun hh => hne hh.symm
    simp [h1, h2]
    exact hninv
  refine ⟨hsel, hmem, ?_⟩
  exact scan_select_isSome_of_mem _ b cb (List.mem_append_left _ hmem) hcb

/-- Witness for C4: runners 3 and 6 both completed in the same tick; the tick
selects the completion of runner 6 and runner 3 survives into the next tick
with its completion still observable. -/
theorem c4_witness :
    scan_select [⟨3, some 0, true⟩, ⟨6, some 5, true⟩] = some (6, 5) ∧
    (⟨3, some 0, true⟩ : Runner) ∈
      surviving_runners [⟨3, some 0, true⟩, ⟨6, some 5, true⟩] [] 6 ∧
    scan_select (surviving_runners [⟨3, some 0, true⟩, ⟨6, some 5, true⟩] [] 6 ++
      List.map launch_runner []) ≠ none :=
  c4_completion_not_lost [⟨3, some 0, true⟩, ⟨6, some 5, true⟩] [] []
    ⟨3, some 0, true⟩ 6 5 0 (by decide) rfl rfl (by decide) (by decide)

/-! C6: the exit-status mapping. -/

/-- C6: exit code 0 maps to Good, exit code 124 maps to Skip, and any other
effective exit code maps to Bad; for a process killed by a signal the signal
number is folded into the same space by the or-else on code() and signal(),
so such a value other than 0 and 124 also maps to Bad. -/
theorem c6_exit_status_mapping (c : Int) (hc0 : c ≠ 0) (hc124 : c ≠ 124) :
    classify_exit 0 = Status.Good ∧
    classify_exit 124 = Status.Skip ∧
    classify_exit c = Status.Bad ∧
    (∀ s : Int, exit_code_of none (some s) = some s) := by
  refine ⟨rfl, by decide, ?_, fun s => rfl⟩
  simp [classify_exit, hc0, hc124]

/-- Witness for C6 at the concrete exit code 137, the usual signal-kill
value. -/
theorem c6_witness :
    classify_exit 0 = Status.Good ∧
    classify_exit 124 = Status.Skip ∧
    classify_exit 137 = Status.Bad ∧
    (∀ s : Int, exit_code_of none (some s) = some s) :=
  c6_exit_status_mapping 137 (by decide) (by decide)

/-! C7: Skip results and the interval bounds. -/

theorem getD_len_le {α : Type} (l : List α) (n : Nat) (d : α) (h : l.length ≤ n) :
    l.getD n d = d := by
  induction l generalizing n with
  | nil => rfl
  | cons x xs ih =>
    cases n with
    | zero => exact absurd h (by simp)
    | succ n2 => simpa using ih n2 (by simpa using h)

theorem step_record_length (cs : List CommitState) (idx : Nat) (st : Status) :
    (step_record cs idx st).length = cs.length := by
  simp [step_record]

theorem status_beq_after_skip (cs : List CommitState) (idx : Nat) (s : Status)
    (hs : Status.Skip ≠ s) (h1 : (cs.getD idx dflt).status ≠ s) (i : Nat) :
    (((step_record cs idx Status.Skip).getD i dflt).status == s) =
      ((cs.getD i dflt).status == s) := by
  by_cases hij : idx = i
  · subst hij
    rw [step_record, getD_set_self]
    by_cases hlt : idx < cs.length
    · rw [if_pos hlt]
      show (Status.Skip == s) = _
      rw [beq_eq_false_iff_ne.mpr hs, beq_eq_false_iff_ne.mpr h1]
    · rw [if_neg hlt, getD_len_le cs idx dflt (Nat.le_of_not_lt hlt)]
  · rw [step_record, getD_set_ne _ _ _ _ _ hij]

theorem compute_lo_after_skip (cs : List CommitState) (idx : Nat)
    (h1 : (cs.getD idx dflt).status ≠ Status.Good) :
    compute_lo (step_record cs idx Status.Skip) = compute_lo cs := by
  rw [compute_lo, compute_lo, step_record_length]
  congr 1
  funext acc i
  simp only [status_beq_after_skip cs idx Status.Good (by decide) h1 i]

theorem compute_hi_after_skip (cs : List CommitState) (idx : Nat)
    (h1 : (cs.getD idx dflt).status ≠ Status.Bad) :
    compute_hi (step_record cs idx Status.Skip) = compute_hi cs := by
  rw [compute_hi, compute_hi, step_record_length]
  congr 1
  funext i acc
  simp only [status_beq_after_skip cs idx Status.Bad (by decide) h1 i]

/-- C7: a Skip result never triggers the endpoint bounds-violation halt, for
every tested index and sequence length, including index 0 and the last; and
recording Skip at a tested index whose record is not already Good or Bad
changes neither the lower nor the upper interval bound. -/
theorem c7_skip_is_neutral (cs : List CommitState) (idx : Nat)
    (h1 : (cs.getD idx dflt).status ≠ Status.Good)
    (h2 : (cs.getD idx dflt).status ≠ Status.Bad) :
    (∀ n, bounds_violation idx n Status.Skip = false) ∧
    compute_lo (step_record cs idx Status.Skip) = compute_lo cs ∧
    compute_hi (step_record cs idx Status.Skip) = compute_hi cs := by
  refine ⟨?_, compute_lo_after_skip cs idx h1, compute_hi_after_skip cs idx h2⟩
  intro n
  simp [bounds_violation]

/-- Witness for C7: Skip resolving at index 0 of a length-3 state with a Good
at index 0 absent; neither bound moves and no violation fires. -/
theorem c7_witness :
    bounds_violation 0 3 Status.Skip = false ∧
    compute_lo (step_record [⟨"a", Status.Unknown⟩, ⟨"b", Status.Good⟩,
      ⟨"c", Status.Bad⟩] 0 Status.Skip) =
      compute_lo [⟨"a", Status.Unknown⟩, ⟨"b", Status.Good⟩, ⟨"c", Status.Bad⟩] ∧
    compute_hi (step_record [⟨"a", Status.Unknown⟩, ⟨"b", Status.Good⟩,
      ⟨"c", Status.Bad⟩] 0 Status.Skip) =
      compute_hi [⟨"a", Status.Unknown⟩, ⟨"b", Status.Good⟩, ⟨"c", Status.Bad⟩] := by
  have h := c7_skip_is_neutral
    [⟨"a", Status.Unknown⟩, ⟨"b", Status.Good⟩, ⟨"c", Status.Bad⟩] 0
    (by decide) (by decide)
  exact ⟨h.1 3, h.2.1, h.2.2⟩

/-! C2 and C9: endpoint bounds violations halt the run. -/

/-- Five all-Unknown commit records, the endpoint-violation scenario state. -/
def csFive : List CommitState :=
  [⟨"c0", Status.Unknown⟩, ⟨"c1", Status.Unknown⟩, ⟨"c2", Status.Unknown⟩,
   ⟨"c3", Status.Unknown⟩, ⟨"c4", Status.Unknown⟩]

/-- C2: whenever a completed result is a bounds violation — index 0 resolved
Bad, or the last index resolved Good — the iteration halts before the
transition function runs, carrying the offending revision hash and its exit
code, the process terminates via the returned value of main, and no report is
emitted by the iteration, so the reporting sink is never called thereafter. -/
theorem c2_bounds_violation_halts (commits : List String) (cs : List CommitState)
    (reckless : Bool) (runners : List Runner) (old_assignments : List Nat)
    (resolved_idx : Nat) (exit_code : Int) (invalidated new_assigned : List Nat)
    (hviol : (resolved_idx = 0 ∧ classify_exit exit_code = Status.Bad) ∨
      (resolved_idx = commits.length - 1 ∧ classify_exit exit_code = Status.Good)) :
    orchestrate_tick commits cs reckless runners old_assignments resolved_idx
        exit_code invalidated new_assigned =
      IterResult.halted (commits.getD resolved_idx "") exit_code (Except.ok ()) ∧
    iter_reports (orchestrate_tick commits cs reckless runners old_assignments
      resolved_idx exit_code invalidated new_assigned) = [] := by
  have h : orchestrate_tick commits cs reckless runners old_assignments resolved_idx
      exit_code invalidated new_assigned =
      IterResult.halted (commits.getD resolved_idx "") exit_code (Except.ok ()) := by
    rcases hviol with ⟨h1, h2⟩ | ⟨h1, h2⟩
    · simp [orchestrate_tick, h1, h2]
    · simp [orchestrate_tick, h1, h2]
  exact ⟨h, by rw [h]; rfl⟩

/-- Witness for C2: the endpoint-violation scenario — sequence length 5,
index 0 resolves Bad with exit code 1; the run halts with no report. -/
theorem c2_witness :
    orchestrate_tick ["c0", "c1", "c2", "c3", "c4"] csFive false
        [⟨0, some 1, true⟩] [0] 0 1 [] [] =
      IterResult.halted "c0" 1 (Except.ok ()) ∧
    iter_reports (orchestrate_tick ["c0", "c1", "c2", "c3", "c4"] csFive false
      [⟨0, some 1, true⟩] [0] 0 1 [] []) = [] :=
  c2_bounds_violation_halts ["c0", "c1", "c2", "c3", "c4"] csFive false
    [⟨0, some 1, true⟩] [0] 0 1 [] [] (Or.inl ⟨rfl, by decide⟩)

/-- C9: a detected bounds violation makes the iteration return success from
main: the returned value is ok unit — exit status 0 — although the condition
is fatal to the run. -/
theorem c9_violation_returns_ok (commits : List String) (cs : List CommitState)
    (reckless : Bool) (runners : List Runner) (old_assignments : List Nat)
    (resolved_idx : Nat) (exit_code : Int) (invalidated new_assigned : List Nat)
    (hviol : (resolved_idx = 0 ∧ classify_exit exit_code = Status.Bad) ∨
      (resolved_idx = commits.length - 1 ∧ classify_exit exit_code = Status.Good)) :
    iter_ret (orchestrate_tick commits cs reckless runners old_assignments
      resolved_idx exit_code invalidated new_assigned) = some (Except.ok ()) := by
  rcases hviol with ⟨h1, h2⟩ | ⟨h1, h2⟩
  · simp [orchestrate_tick, h1, h2, iter_ret]
  · simp [orchestrate_tick, h1, h2, iter_ret]

/-- Witness for C9: the last index of a length-3 sequence resolves Good with
exit code 0; main returns ok unit. -/
theorem c9_witness :
    iter_ret (orchestrate_tick ["a", "b", "c"]
      [⟨"a", Status.Unknown⟩, ⟨"b", Status.Unknown⟩, ⟨"c", Status.Unknown⟩]
      false [⟨2, some 0, true⟩] [2] 2 0 [] []) = some (Except.ok ()) :=
  c9_violation_returns_ok ["a", "b", "c"]
    [⟨"a", Status.Unknown⟩, ⟨"b", Status.Unknown⟩, ⟨"c", Status.Unknown⟩]
    false [⟨2, some 0, true⟩] [2] 2 0 [] [] (Or.inr ⟨rfl, by decide⟩)

/-! C3: loop termination versus the assignment set. -/

theorem poll_loop_nil_eq_none : ∀ fuel, poll_loop [] fuel = none := by
  intro fuel
  induction fuel with
  | zero => rfl
  | succ n ih => simpa [poll_loop, scan_select] using ih

/-- C3 counterexample: with an empty runner set — exactly the situation of an
empty initial allocator proposal — the polling phase never returns at any
fuel, so the run does not end: it polls forever instead of terminating. -/
theorem c3_counterexample : ¬ poll_terminates [] := by
  rintro ⟨fuel, h⟩
  rw [poll_loop_nil_eq_none fuel] at h
  simp at h

/-- C3 amended: the main loop terminates exactly when the runner set is empty
at the end of an iteration (the break flag of a continuing iteration is set
precisely when the updated runner set is empty); however, when the runner set
is empty on entry to the polling phase — as with an empty initial allocator
proposal — the poll never returns and the run polls forever. -/
theorem c3_amended_termination :
    (∀ fuel, poll_loop [] fuel = none) ∧
    (∀ (commits : List String) (cs : List CommitState) (reckless : Bool)
      (runners : List Runner) (old_assignments : List Nat) (resolved_idx : Nat)
      (exit_code : Int) (invalidated new_assigned : List Nat)
      (cs2 : List CommitState) (reports : List (Status × String))
      (rs : List Runner) (brk : Bool),
      orchestrate_tick commits cs reckless runners old_assignments resolved_idx
          exit_code invalidated new_assigned =
        IterResult.cont cs2 reports rs brk →
      (brk = true ↔ rs = [])) := by
  refine ⟨poll_loop_nil_eq_none, ?_⟩
  intro commits cs reckless runners old_assignments resolved_idx exit_code
    invalidated new_assigned cs2 reports rs brk h
  rw [orchestrate_tick] at h
  split at h
  · exact absurd h (by simp)
  · split at h
    · exact absurd h (by simp)
    · split at h
      · exact absurd h (by simp)
      · rw [IterResult.cont.injEq] at h
        obtain ⟨-, -, hrs, hbrk⟩ := h
        subst hrs
        subst hbrk
        exact List.isEmpty_iff

/-- Witness for C3 amended: an iteration with an empty updated runner set
breaks, and the empty poll finds nothing at fuel 3. -/
theorem c3_witness :
    poll_loop [] 3 = none ∧
    (List.isEmpty ([] : List Runner) = true ↔ ([] : List Runner) = []) := by
  constructor
  · exact c3_amended_termination.1 3
  · exact c3_amended_termination.2 ["a", "b", "c"]
      [⟨"a", Status.Unknown⟩, ⟨"b", Status.Unknown⟩, ⟨"c", Status.Unknown⟩]
      true [] [] 1 7 [] []
      (step_record [⟨"a", Status.Unknown⟩, ⟨"b", Status.Unknown⟩,
        ⟨"c", Status.Unknown⟩] 1 Status.Bad)
      [(Status.Bad, "b")] [] (List.isEmpty ([] : List Runner)) rfl

/-! C8: cancellation of stale workers. -/

theorem kill_list_some_of_all (rs : List Runner)
    (h : ∀ r ∈ rs, r.kill_ok = true) : ∃ l, kill_list rs = some l := by
  induction rs with
  | nil => exact ⟨[], rfl⟩
  | cons r t ih =>
    obtain ⟨l, hl⟩ := ih (fun x hx => h x (List.mem_cons_of_mem _ hx))
    exact ⟨r.idx :: l, by simp [kill_list, h r (List.mem_cons_self _ _), hl]⟩

theorem kill_list_none_of_fail (rs : List Runner) (r : Runner) (hr : r ∈ rs)
    (hk : r.kill_ok = false) : kill_list rs = none := by
  induction rs with
  | nil => cases hr
  | cons x t ih =>
    rcases List.mem_cons.mp hr with h | h
    · subst h; simp [kill_list, hk]
    · by_cases hx : x.kill_ok
      · simp [kill_list, hx, ih h]
      · simp [kill_list, hx]

theorem kill_list_covers (rs : List Runner) (l : List Nat)
    (h : kill_list rs = some l) (r : Runner) (hr : r ∈ rs) : r.idx ∈ l := by
  induction rs generalizing l with
  | nil => cases hr
  | cons x t ih =>
    by_cases hx : x.kill_ok
    · rw [kill_list, if_pos hx] at h
      obtain ⟨l2, hl2, hcons⟩ := Option.map_eq_some'.mp h
      subst hcons
      rcases List.mem_cons.mp hr with hh | hh
      · subst hh; exact List.mem_cons_self _ _
      · exact List.mem_cons_of_mem _ (ih l2 hl2 hh)
    · rw [kill_list, if_neg hx] at h
      cases h

theorem seq_cancels_none_of_mem (runners : List Runner) (l : List Nat) (i : Nat)
    (hi : i ∈ l) (hnone : cancel_one i runners = none) :
    seq_cancels runners l = none := by
  induction l with
  | nil => cases hi
  | cons j t ih =>
    rcases List.mem_cons.mp hi with h | h
    · subst h; simp [seq_cancels, hnone]
    · cases hj : cancel_one j runners with
      | none => simp [seq_cancels, hj]
      | some lj => simp [seq_cancels, hj, ih h]

theorem seq_cancels_some_of_all (runners : List Runner) (l : List Nat)
    (h : ∀ i ∈ l, ∃ li, cancel_one i runners = some li) :
    ∃ ls, seq_cancels runners l = some ls ∧
      ∀ i ∈ l, ∃ li ∈ ls, cancel_one i runners = some li := by
  induction l with
  | nil => exact ⟨[], rfl, by intro i hi; cases hi⟩
  | cons j t ih =>
    obtain ⟨lj, hlj⟩ := h j (List.mem_cons_self _ _)
    obtain ⟨ls, hls, hcov⟩ := ih (fun i hi => h i (List.mem_cons_of_mem _ hi))
    refine ⟨lj :: ls, by simp [seq_cancels, hlj, hls], ?_⟩
    intro i hi
    rcases List.mem_cons.mp hi with hh | hh
    · subst hh; exact ⟨lj, List.mem_cons_self _ _, hlj⟩
    · obtain ⟨li, hmem, heq⟩ := hcov i hh
      exact ⟨li, List.mem_cons_of_mem _ hmem, heq⟩

/-- C8: after each transition call, with the stale (invalidated) indices drawn
from the old assignment set, cancellation forcefully terminates every live
runner whose index is stale: when all such kills succeed the cancellation
completes and every such runner index appears among the killed indices, and
when any such kill fails the cancellation is none — the run aborts, neither
retrying nor ignoring the failure. -/
theorem c8_stale_workers_killed (old_assignments invalidated : List Nat)
    (runners : List Runner) (hsub : ∀ i ∈ invalidated, i ∈ old_assignments) :
    ((∀ r ∈ runners, r.idx ∈ invalidated → r.kill_ok = true) →
      cancel_invalidated old_assignments invalidated runners ≠ none ∧
      ∀ r ∈ runners, r.idx ∈ invalidated →
        r.idx ∈ killed_indices old_assignments invalidated runners) ∧
    ((∃ r, r ∈ runners ∧ r.idx ∈ invalidated ∧ r.kill_ok = false) →
      cancel_invalidated old_assignments invalidated runners = none) := by
  constructor
  · intro hall
    have hone : ∀ i ∈ old_assignments.filter (fun i => invalidated.contains i),
        ∃ li, cancel_one i runners = some li := by
      intro i hi
      obtain ⟨-, hcon⟩ := List.mem_filter.mp hi
      have hinv : i ∈ invalidated := List.elem_iff.mp hcon
      refine kill_list_some_of_all _ ?_
      intro r hrf
      obtain ⟨hrr, hbeq⟩ := List.mem_filter.mp hrf
      have : r.idx = i := by simpa using hbeq
      exact hall r hrr (this ▸ hinv)
    obtain ⟨ls, hls, hcov⟩ := seq_cancels_some_of_all runners _ hone
    have hcancel : cancel_invalidated old_assignments invalidated runners = some ls := hls
    constructor
    · rw [hcancel]; simp
    · intro r hr hrinv
      have hif : r.idx ∈ old_assignments.filter (fun i => invalidated.contains i) :=
        List.mem_filter.mpr ⟨hsub _ hrinv, by simpa using List.elem_iff.mpr hrinv⟩
      obtain ⟨li, hmem, heq⟩ := hcov _ hif
      have hidx : r.idx ∈ li := by
        refine kill_list_covers _ li heq r ?_
        exact List.mem_filter.mpr ⟨hr, by simp⟩
      rw [killed_indices, hcancel]
      simpa using List.mem_flatten.mpr ⟨li, hmem, hidx⟩
  · rintro ⟨r, hr, hrinv, hfail⟩
    have hif : r.idx ∈ old_assignments.filter (fun i => invalidated.contains i) :=
      List.mem_filter.mpr ⟨hsub _ hrinv, by simpa using List.elem_iff.mpr hrinv⟩
    refine seq_cancels_none_of_mem runners _ r.idx hif ?_
    refine kill_list_none_of_fail _ r ?_ hfail
    exact List.mem_filter.mpr ⟨hr, by simp⟩

/-- Witness for C8: one stale live runner at index 2 whose kill succeeds; the
cancellation completes and index 2 is among the killed indices. -/
theorem c8_witness :
    cancel_invalidated [1, 2] [2] [⟨2, some 7, true⟩] ≠ none ∧
    (2 : Nat) ∈ killed_indices [1, 2] [2] [⟨2, some 7, true⟩] := by
  have h := (c8_stale_workers_killed [1, 2] [2] [⟨2, some 7, true⟩] (by decide)).1
    (by decide)
  exact ⟨h.1, h.2 ⟨2, some 7, true⟩ (by decide) (by decide)⟩

/-! C1: gating of external reporting. -/

theorem resolved_reports_spec_cons (c : CommitState) (t : List CommitState) :
    resolved_reports_spec (c :: t) =
      (if c.status != Status.Unknown then [(c.status, c.hash)] else []) ++
        resolved_reports_spec t := by
  by_cases hc : (c.status != Status.Unknown) = true
  · simp [resolved_reports_spec, List.range_succ_eq_map, List.filter_cons, hc,
      List.filter_map, List.map_map, Function.comp_def]
  · simp [resolved_reports_spec, List.range_succ_eq_map, List.filter_cons, hc,
      List.filter_map, List.map_map, Function.comp_def]

theorem bisect_report_all_eq_spec (cs : List CommitState) :
    bisect_report_all cs = resolved_reports_spec cs := by
  induction cs with
  | nil => rfl
  | cons c t ih =>
    rw [resolved_reports_spec_cons, ← ih, bisect_report_all, bisect_report_all,
      List.filter_cons]
    by_cases hc : (c.status != Status.Unknown) = true
    · simp [hc]
    · simp [hc]

/-- C1 counterexample: the bounds-gating scenario with sequence length 10 and
reckless off.  Index 5 resolves Bad first and the gate reports nothing, bounds
being unvalidated; then index 2 resolves Good, the first step after which both
a Good and a Bad exist — yet the gate emits only the single just-resolved
record, not the claimed flush of every resolved record in index order, because
the just-resolved index 2 is not an endpoint of the sequence. -/
theorem c1_counterexample :
    report_gate (step_record csTen 5 Status.Bad) false 5 Status.Bad "c5" =
      ReportAction.noReport ∧
    report_gate (step_record (step_record csTen 5 Status.Bad) 2 Status.Good) false 2
        Status.Good "c2" = ReportAction.single (Status.Good, "c2") ∧
    report_gate (step_record (step_record csTen 5 Status.Bad) 2 Status.Good) false 2
        Status.Good "c2" ≠
      ReportAction.flushAll [(Status.Good, "c2"), (Status.Bad, "c5")] := by
  refine ⟨by decide, by decide, by decide⟩

/-- C1 amended: with reckless off, nothing is reported while the candidate
records hold no Good or no Bad; once they hold both, the just-resolved record
is reported immediately as it arrives, and the flush of every record whose
resolution is not Unknown, in index order, is performed exactly when the
just-resolved index is an endpoint of the sequence — not at the first step
after which both exist when that step resolves an interior index. -/
theorem c1_amended_report_gating (cs : List CommitState) (reckless : Bool)
    (idx : Nat) (st : Status) (h : String) :
    (bounds_validated cs reckless = false →
      report_gate cs reckless idx st h = ReportAction.noReport) ∧
    (bounds_validated cs reckless = true → (idx = 0 ∨ idx = cs.length - 1) →
      report_gate cs reckless idx st h =
        ReportAction.flushAll (resolved_reports_spec cs)) ∧
    (bounds_validated cs reckless = true → ¬(idx = 0 ∨ idx = cs.length - 1) →
      report_gate cs reckless idx st h = ReportAction.single (st, h)) := by
  refine ⟨?_, ?_, ?_⟩
  · intro hb; simp [report_gate, hb]
  · intro hb he; simp [report_gate, hb, he, bisect_report_all_eq_spec]
  · intro hb he; simp [report_gate, hb, he]

/-- Witness for C1 amended: a validated two-record state flushes at endpoint
index 0. -/
theorem c1_witness :
    report_gate [⟨"g", Status.Good⟩, ⟨"b", Status.Bad⟩] false 0 Status.Good "g" =
      ReportAction.flushAll
        (resolved_reports_spec [⟨"g", Status.Good⟩, ⟨"b", Status.Bad⟩]) :=
  (c1_amended_report_gating [⟨"g", Status.Good⟩, ⟨"b", Status.Bad⟩] false 0
    Status.Good "g").2.1 (by decide) (Or.inl rfl)

/-! C10: determinism of the randomized polling. -/

theorem scan_foldl_obs_congr : ∀ (r1 r2 : List Runner),
    r1.map runner_obs = r2.map runner_obs →
    ∀ acc, r1.foldl scan_step acc = r2.foldl scan_step acc := by
  intro r1
  induction r1 with
  | nil =>
    intro r2 hobs acc
    rw [List.eq_nil_of_map_eq_nil hobs.symm]
  | cons a t ih =>
    intro r2 hobs acc
    cases r2 with
    | nil => simp at hobs
    | cons b s =>
      simp only [List.map_cons, List.cons.injEq] at hobs
      obtain ⟨hab, hts⟩ := hobs
      rw [List.foldl_cons, List.foldl_cons]
      have hstep : scan_step acc a = scan_step acc b := by
        rw [runner_obs, runner_obs, Prod.mk.injEq] at hab
        obtain ⟨hidx, hcomp⟩ := hab
        rw [scan_step, scan_step, hidx, hcomp]
      rw [hstep]
      exact ih s hts _

theorem scan_select_obs_congr (r1 r2 : List Runner)
    (hobs : r1.map runner_obs = r2.map runner_obs) :
    scan_select r1 = scan_select r2 :=
  scan_foldl_obs_congr r1 r2 hobs none

/-- C10: the polling of each iteration is deterministic across runs — the
generator is seeded from the iteration counter alone, and with the amount
equal to the runner count the produced scan order is the runner-list order —
so two runs at the same iteration whose runner lists agree on the observable
completion states (index and completion) scan in the same observable order
and select the same completion, whatever the hidden parts of the worker
handles are. -/
theorem c10_deterministic_polling (it1 it2 : Nat) (r1 r2 : List Runner)
    (hit : it1 = it2) (hobs : r1.map runner_obs = r2.map runner_obs) :
    (scan_order (rng_seed_of_iter it1) r1).map runner_obs =
      (scan_order (rng_seed_of_iter it2) r2).map runner_obs ∧
    tick_selection it1 r1 = tick_selection it2 r2 := by
  subst hit
  refine ⟨hobs, ?_⟩
  rw [tick_selection, tick_selection, scan_order, scan_order]
  exact scan_select_obs_congr r1 r2 hobs

/-- Witness for C10: two runner lists equal in observation but with different
kill behavior produce the same scan observations and the same selection at
iteration 1. -/
theorem c10_witness :
    (scan_order (rng_seed_of_iter 1) [⟨4, some 0, true⟩]).map runner_obs =
      (scan_order (rng_seed_of_iter 1) [⟨4, some 0, false⟩]).map runner_obs ∧
    tick_selection 1 [⟨4, some 0, true⟩] = tick_selection 1 [⟨4, some 0, false⟩] :=
  c10_deterministic_polling 1 1 [⟨4, some 0, true⟩] [⟨4, some 0, false⟩] rfl
    (by decide)

end GitBiasect
